import Mathlib

/-!
# Verification of the Journal Lookup Tool pipeline

Shallow embedding of the retrieval-and-report pipeline of
`Journal_Lookup_Tool.py` (v3.0.0), together with theorems settling the
frozen specification claims.  Every definition is translated from the
Python source (line numbers cited in the doc comments); spec-side
definitions used only to compare against the code are named explicitly
as such.

Conventions of the embedding:
* Python dict keys that may be absent are `Option` fields; a `KeyError`
  caught by `try/except` becomes a `match` on the `Option`.
* Python strings are `String` or `List Char` (for the character-indexed
  wrap loops); `s[:i]`/`s[i:]` become `List.take`/`List.drop`.
* Wall-clock effects (`time.sleep`) and network calls are recorded as
  events in an explicit trace; the network is an environment function
  from the call counter to a response.
* An uncaught Python exception (`AttributeError`, `NameError`) is a
  distinguished error value of the embedding, never a silent default.
-/

set_option autoImplicit false

/-! ## Data model -/

/-- One entry of an article's `ArticleDate` list.  The Python code copies
the list verbatim (line 145) and the renderer later reads the keys
`Year`/`Month`/`Day` of the first entry (lines 471-477); each key may be
absent. -/
structure PubDate where
  year : Option String
  month : Option String
  day : Option String
  deriving DecidableEq

/-- One entry of an article's `AuthorList`: the `LastName` key (line 158,
may be absent, in which case the whole author list extraction fails with
`KeyError`) and the `AffiliationInfo` sub-entries (lines 165-171, the
`Affiliation` string of each). -/
structure Author where
  lastName : Option String
  affiliationInfo : Option (List String)
  deriving DecidableEq

/-- A field of the normalized record that the extractor either copies or
replaces by a "No ... available" placeholder (`na`). -/
inductive FieldVal (α : Type) where
  | avail (v : α)
  | na
  deriving DecidableEq

/-- The normalized record built by `get_paper_info` (lines 111-175): the
Python `component` dict.  `Title` and `Abstract` are always present in a
retained record (the `break` rule drops the article otherwise), `Journal`
and `Institution` are present-or-absent keys, `Date`/`Link`/`Authors`
fall back to a placeholder on `KeyError`. -/
structure Component where
  title : String
  abstract : String
  journal : Option String
  date : FieldVal (List PubDate)
  link : FieldVal (List String)
  authors : FieldVal (List String)
  institution : Option (List String)
  deriving DecidableEq

/-- One nested article of a fetched raw record.  `hasArticlePath` models
the guard `"MedlineCitation" in article and "Article" in
article["MedlineCitation"]` (line 119); the remaining fields model the
keys read beneath `article["MedlineCitation"]["Article"]`:
`ArticleTitle`, `Abstract.AbstractText[0]` (the first abstract text, when
that whole path resolves), `Journal.Title`, `ArticleDate`, `ELocationID`
and `AuthorList`. -/
structure Article where
  hasArticlePath : Bool
  articleTitle : Option String
  abstractText : Option String
  journalTitle : Option String
  articleDate : Option (List PubDate)
  eLocationID : Option (List String)
  authorList : Option (List Author)
  deriving DecidableEq

/-- One raw record returned by a fetch: the `PubmedArticle` list the
extractor iterates over (line 118). -/
structure Paper where
  pubmedArticle : List Article
  deriving DecidableEq

/-! ## Deduplicator: `remove_duplicates` (lines 57-59) -/

/-- The single pass of `remove_duplicates`: `seen` is the accumulated set
of titles; an element is kept iff its `Title` is not yet in `seen`, and
its title is added on keeping (`x["Title"] in seen or seen.add(...)`). -/
def rdGo : List String → List Component → List Component
  | _, [] => []
  | seen, x :: rest =>
    if x.title ∈ seen then rdGo seen rest
    else x :: rdGo (x.title :: seen) rest

/-- `remove_duplicates(components)` (lines 57-59). -/
def remove_duplicates (components : List Component) : List Component :=
  rdGo [] components

/-- Spec-side definition (refinement target, from the spec's words):
"keeps the first occurrence of each distinct `title` value, drops later
ones, preserves relative order of kept elements". -/
def dedupeKeepFirst : List Component → List Component
  | [] => []
  | x :: rest =>
    x :: dedupeKeepFirst (rest.filter (fun y => decide (y.title ≠ x.title)))
termination_by l => l.length
decreasing_by
  simp only [List.length_cons]
  exact Nat.lt_succ_of_le (List.length_filter_le _ _)

/-! ## Metadata extractor: `get_paper_info` (lines 111-175) -/

/-- The flattened affiliation list (lines 165-171): affiliation strings
gathered from the authors that carry `AffiliationInfo` sub-entries. -/
def collectAffiliations : List Author → List String
  | [] => []
  | au :: rest =>
    (match au.affiliationInfo with
     | some affs => affs
     | none => []) ++ collectAffiliations rest

/-- Builds the `component` dict of one retained article (lines 120-172),
given its title and abstract (both already known present):
* `Journal` copied only if the `Journal.Title` path exists (137-141);
* `Date`/`Link`: placeholder on `KeyError` (144-153);
* `Authors`: the surname list, or the placeholder if the `AuthorList`
  key is missing or any author lacks `LastName` (156-162);
* `Institution`: present only when `AuthorList` exists (165-171). -/
def mkComponent (a : Article) (t ab : String) : Component where
  title := t
  abstract := ab
  journal := a.journalTitle
  date := match a.articleDate with
    | some d => .avail d
    | none => .na
  link := match a.eLocationID with
    | some l => .avail l
    | none => .na
  authors := match a.authorList with
    | none => .na
    | some lst =>
      if lst.all (fun au => au.lastName.isSome) then
        .avail (lst.map (fun au => au.lastName.getD ""))
      else .na
  institution := match a.authorList with
    | none => none
    | some lst => some (collectAffiliations lst)

/-- The inner `for article in paper["PubmedArticle"]` loop (lines
118-172).  An article failing the `MedlineCitation`/`Article` guard is
skipped (`continue` semantics); a missing `ArticleTitle` or a missing
abstract executes `break`, ending the loop over this record's remaining
articles with nothing appended for the offending article. -/
def processArticles : List Article → List Component
  | [] => []
  | a :: rest =>
    if a.hasArticlePath then
      match a.articleTitle with
      | none => []
      | some t =>
        match a.abstractText with
        | none => []
        | some ab => mkComponent a t ab :: processArticles rest
    else processArticles rest

/-- The outer `for paper in papers` loop of `get_paper_info`,
accumulating `components` across raw records. -/
def collectPapers : List Paper → List Component
  | [] => []
  | p :: rest => processArticles p.pubmedArticle ++ collectPapers rest

/-- `get_paper_info(papers)` (lines 111-175): extract every paper's
articles, then `remove_duplicates` (line 174). -/
def get_paper_info (papers : List Paper) : List Component :=
  remove_duplicates (collectPapers papers)

/-! ## Institutions summary of `get_pptx` (lines 522-559) -/

/-- One dict update `institution_count[institution] += 1` /
`= 1` (lines 528-532), on the insertion-ordered association list that
models the Python dict. -/
def bump (s : String) : List (String × Nat) → List (String × Nat)
  | [] => [(s, 1)]
  | (t, n) :: rest =>
    if t = s then (t, n + 1) :: rest else (t, n) :: bump s rest

/-- The frequency dict of an affiliation list (lines 527-532), keys in
first-encountered order. -/
def countFreq (l : List String) : List (String × Nat) :=
  l.foldl (fun acc s => bump s acc) []

/-- Stable insertion used to model Python's stable
`sorted(..., reverse=True)`: the new element goes after every element of
count greater than or equal to its own. -/
def insStable (x : String × Nat) : List (String × Nat) → List (String × Nat)
  | [] => [x]
  | y :: ys => if y.2 < x.2 then x :: y :: ys else y :: insStable x ys

/-- `sorted(institution_count, key=institution_count.get, reverse=True)`
(line 536): the dict keys, stably sorted by descending count (ties keep
first-encountered order). -/
def sortByCountDesc (l : List (String × Nat)) : List (String × Nat) :=
  l.foldl (fun acc x => insStable x acc) []

/-- Lines 536-540: take the top two, format each as `"<name> <count>"`,
join with `"; "`, prefix `"Institutions: "`. -/
def instSummary (cnt : List (String × Nat)) : String :=
  "Institutions: " ++ String.intercalate "; "
    (((sortByCountDesc cnt).take 2).map (fun p => p.1 ++ " " ++ toString p.2))

/-- The per-component institutions rendering of the slide loop (lines
525-559), with the Python scoping made explicit: `institution_count` is
assigned only inside `if "Institution" in component:` (lines 525-532),
but lines 536-559 run unconditionally, so a component without the
`Institution` key reuses the binding left by an earlier component — and
if no earlier component bound it, line 536 raises `NameError`
(modelled by `none`). -/
def instLinesLoop : Option (List (String × Nat)) → List Component → Option (List String)
  | _, [] => some []
  | st, c :: rest =>
    let st2 : Option (List (String × Nat)) :=
      match c.institution with
      | some insts => some (countFreq insts)
      | none => st
    match st2 with
    | none => none
    | some cnt =>
      match instLinesLoop st2 rest with
      | none => none
      | some ls => some (instSummary cnt :: ls)

/-- The institutions line of every rendered slide, in order (`none` when
the run dies with `NameError`).  `institution_count` starts unbound. -/
def instLines (components : List Component) : Option (List String) :=
  instLinesLoop none components

/-! ## Text layout engine (the wrap loops of `get_pptx`,
lines 283-306, 388-411, 428-451, 491-515, 542-559) -/

/-- The whitespace test of Python's `str.lstrip()` / `str.isspace()`:
the tab/newline block U+0009-U+000D, the file/group/record/unit
separators U+001C-U+001F, the space, NEL U+0085, NBSP U+00A0, the Ogham
space U+1680, the U+2000-U+200A spaces, the line and paragraph
separators U+2028/U+2029, the narrow NBSP U+202F, the mathematical space
U+205F and the ideographic space U+3000. -/
def isPySpace (c : Char) : Bool :=
  (9 ≤ c.toNat && c.toNat ≤ 13) || (28 ≤ c.toNat && c.toNat ≤ 32) ||
    c.toNat = 133 || c.toNat = 160 || c.toNat = 5760 ||
    (8192 ≤ c.toNat && c.toNat ≤ 8202) || c.toNat = 8232 ||
    c.toNat = 8233 || c.toNat = 8239 || c.toNat = 8287 || c.toNat = 12288

/-- `text.lstrip()` on the remaining text (e.g. line 397). -/
def stripLeading (s : List Char) : List Char :=
  s.dropWhile isPySpace

/-- Index of the last `' '` of a character list, if any; applied to
`s.take m` this is `s.rfind(" ", 0, m)` (e.g. line 391), with `none` for
Python's `-1`. -/
def lastSpaceIdx : List Char → Option Nat
  | [] => none
  | c :: cs =>
    match lastSpaceIdx cs with
    | some k => some (k + 1)
    | none => if c = ' ' then some 0 else none

/-- The greedy wrap loop (e.g. lines 388-406): while the text is longer
than the budget `m`, split at the last space strictly before position
`m` (or hard-split at `m` when `rfind` returns `-1`), emit the prefix as
a line, and continue with the `lstrip`ped remainder; finally emit the
remainder as the last line.  Each emitted chunk is paired with a flag
recording whether the `lstrip` at its break consumed a leading `' '`
(the last chunk's flag is `false`).  The fuel argument bounds the number
of iterations; `s.length` iterations always suffice for a positive
budget, which is the only case the Python code exercises (budgets 75,
100, 115, 170). -/
def wrapGo : Nat → List Char → Nat → List (List Char × Bool)
  | 0, s, _ => [(s, false)]
  | fuel + 1, s, m =>
    if s.length > m then
      let k := (lastSpaceIdx (s.take m)).getD m
      let rest0 := s.drop k
      (s.take k, decide (rest0.head? = some ' ')) ::
        wrapGo fuel (stripLeading rest0) m
    else [(s, false)]

/-- The emitted lines (with break flags) for one text and one budget. -/
def wrapChunks (s : List Char) (m : Nat) : List (List Char × Bool) :=
  wrapGo s.length s m

/-- The claim's reconstruction: concatenate the emitted lines,
reinserting a single `' '` at each break whose flag marks a consumed
space. -/
def joinWrap : List (List Char × Bool) → List Char
  | [] => []
  | (c, b) :: rest => c ++ (if b then [' '] else []) ++ joinWrap rest

/-- `pat` is a prefix of `s` (character-wise). -/
def beginsWith : List Char → List Char → Bool
  | [], _ => true
  | _ :: _, [] => false
  | p :: ps, c :: cs => p = c && beginsWith ps cs

/-- Left-to-right non-overlapping replacement, the semantics of Python
`str.replace`; the fuel (one unit per examined position, `s.length`
suffices for a non-empty pattern) makes the recursion structural. -/
def replAux : Nat → List Char → List Char → List Char → List Char
  | 0, s, _, _ => s
  | _ + 1, [], _, _ => []
  | fuel + 1, c :: cs, pat, rep =>
    if beginsWith pat (c :: cs) then
      rep ++ replAux fuel ((c :: cs).drop pat.length) pat rep
    else c :: replAux fuel cs pat rep

/-- `s.replace(pat, rep)`. -/
def pyReplace (s pat rep : List Char) : List Char :=
  replAux s.length s pat rep

/-- The tag-stripping chain applied before wrapping (lines 379-387,
419-427): remove `<sub>`, `</sub>`, `<i>`, `</i>`, `<sup>`, `</sup>` in
that order. -/
def stripTags (s : List Char) : List Char :=
  pyReplace (pyReplace (pyReplace (pyReplace (pyReplace (pyReplace s
    "<sub>".data [] ) "</sub>".data []) "<i>".data [])
    "</i>".data []) "<sup>".data []) "</sup>".data []

/-- The full layout engine for one field: strip the six tags, then run
the wrap loop with the field's budget. -/
def layoutField (s : List Char) (m : Nat) : List (List Char × Bool) :=
  wrapChunks (stripTags s) m

/-- No two adjacent `' '` characters. -/
def noAdjSp : List Char → Bool
  | [] => true
  | [_] => true
  | a :: b :: t => !(a = ' ' && b = ' ') && noAdjSp (b :: t)

/-- Every whitespace character of the text is a plain `' '`. -/
def spacesOnlyWS (s : List Char) : Bool :=
  s.all (fun c => !isPySpace c || c = ' ')

/-! ## Rate-limited retrieval: `get_paper` (lines 86-109) and the fetch
loop of `lookup_pubmed` (lines 692-702) -/

/-- An observable effect of the fetch layer: a `time.sleep(n)` or one
`Entrez.efetch` call for a PMID. -/
inductive Ev where
  | sleepEv (n : Nat)
  | fetchEv (pmid : String)
  deriving DecidableEq

/-- The environment's answer to one `Entrez.efetch` call: a paper, or an
`HTTPError` with the given status code. -/
inductive Resp (α : Type) where
  | ok (paper : α)
  | err (status : Nat)
  deriving DecidableEq

/-- Outcome of one `get_paper` call: the paper returned, or the
`AttributeError` raised by the `except HTTPError` handler itself at its
first expression `e.response.status_code` (line 101) —
`urllib.error.HTTPError` has no `.response` attribute. -/
inductive GPRes (α : Type) where
  | ok (paper : α)
  | attrError
  deriving DecidableEq

/-- `get_paper(pmid)` (lines 86-109) against one response: on success,
the paper.  On `HTTPError` the handler's first expression
`e.response.status_code` (line 101) raises `AttributeError`, because
`urllib.error.HTTPError` (the exception `Entrez.efetch` raises, imported
at line 37) has no `.response` attribute — so the prints, the two
`time.sleep(10)` backoffs and the `raise e` branch below it are dead
code: every `HTTPError` response, whatever its status, becomes an
uncaught `AttributeError` with no backoff.  Also records the efetch
call. -/
def get_paper {α : Type} (pmid : String) (r : Resp α) : GPRes α × List Ev :=
  match r with
  | .ok p => (.ok p, [.fetchEv pmid])
  | .err _ => (.attrError, [.fetchEv pmid])

/-- Result of (part of) the fetch loop: the papers accumulated, the
event trace, the next value of the global call counter, and whether an
uncaught exception (the `AttributeError`) aborted the run.  When
`crashed` is `true` the `papers` field is the list Python had built
before the exception destroyed the frame — it is never returned to the
caller. -/
structure LookupOut (α : Type) where
  papers : List α
  events : List Ev
  nextCall : Nat
  crashed : Bool
  deriving DecidableEq

/-- The per-PMID retry loop `for _ in range(attempt_number)` (lines
695-702).  The environment `σ` maps the global efetch-call counter to
the response of that call.  A returned paper is appended and the loop
continues (there is no `break` on success); on an `HTTPError` response
the `AttributeError` raised inside `get_paper`'s own handler is not an
`HTTPError`, escapes the caller's `except HTTPError: ... continue`
clause — which is therefore unreachable — and aborts everything. -/
def attemptLoop {α : Type} (pmid : String) : Nat → (Nat → Resp α) → Nat → LookupOut α
  | 0, _, c => ⟨[], [], c, false⟩
  | att + 1, σ, c =>
    match get_paper pmid (σ c) with
    | (.ok p, evs) =>
      let r := attemptLoop pmid att σ (c + 1)
      ⟨p :: r.papers, evs ++ r.events, r.nextCall, r.crashed⟩
    | (.attrError, evs) => ⟨[], evs, c + 1, true⟩

/-- The `for pmid in pmids` loop (lines 692-702): `time.sleep(1)` once
per PMID (line 694, before the retry loop), then the retry loop; a crash
inside any retry loop aborts the remaining PMIDs. -/
def pmidLoop {α : Type} (att : Nat) (σ : Nat → Resp α) : List String → Nat → LookupOut α
  | [], c => ⟨[], [], c, false⟩
  | p :: rest, c =>
    let r := attemptLoop p att σ c
    if r.crashed then ⟨r.papers, .sleepEv 1 :: r.events, r.nextCall, true⟩
    else
      let r2 := pmidLoop att σ rest r.nextCall
      ⟨r.papers ++ r2.papers, (.sleepEv 1 :: r.events) ++ r2.events,
        r2.nextCall, r2.crashed⟩

/-- Spec-side event shape for the amended pacing claim: one `sleep 1`
per identifier, immediately before that identifier's block of
`att` fetch calls. -/
def pacedEvents (att : Nat) : List String → List Ev
  | [] => []
  | p :: rest =>
    (Ev.sleepEv 1 :: List.replicate att (Ev.fetchEv p)) ++ pacedEvents att rest

/-- Spec-side paper shape for the all-success run: each identifier's
record appended `att` times. -/
def repeatedPapers {α : Type} (att : Nat) (r : α) : List String → List α
  | [] => []
  | _ :: rest => List.replicate att r ++ repeatedPapers att r rest

/-! ## Query planner (lines 679-687) and the date values it interpolates
(lines 629-652) -/

/-- Zero-padding to two digits, as in `datetime.__str__` month/day. -/
def pad2 (n : Nat) : String := if n < 10 then "0" ++ toString n else toString n

/-- Zero-padding to four digits, as in `datetime.__str__` year. -/
def pad4 (n : Nat) : String :=
  if n < 10 then "000" ++ toString n
  else if n < 100 then "00" ++ toString n
  else if n < 1000 then "0" ++ toString n
  else toString n

/-- A date endpoint as `lookup_pubmed` receives it: the default path
(lines 629-633) supplies strings (`strftime("%Y/%m/%d")` and the literal
`"3000/01/01"`), while the custom path (lines 635-646) converts the
validated strings with `strptime`, supplying `datetime` objects. -/
inductive PyDate where
  | str (s : String)
  | dt (y m d : Nat)
  deriving DecidableEq

/-- How an f-string renders the endpoint (line 683): a string verbatim;
a `datetime` as `str(datetime)`, i.e. `YYYY-MM-DD HH:MM:SS` with the
midnight time `strptime("%Y/%m/%d")` leaves. -/
def PyDate.interp : PyDate → String
  | .str s => s
  | .dt y m d => pad4 y ++ "-" ++ pad2 m ++ "-" ++ pad2 d ++ " 00:00:00"

/-- The custom branch of `ask_user_date` (lines 635-646): both validated
`YYYY/MM/DD` inputs (components `sy/sm/sdy` and `ey/em/edy`) are passed
through `datetime.strptime` and returned as `datetime` values. -/
def ask_user_date_custom (sy sm sdy ey em edy : Nat) : PyDate × PyDate :=
  (.dt sy sm sdy, .dt ey em edy)

/-- The combined query f-string of line 683. -/
def combinedQuery (kw : String) (sd ed : PyDate) (j : String) : String :=
  kw ++ " AND (\"" ++ sd.interp ++ "\"[Date - Entry] : \"" ++ ed.interp
     ++ "\"[Date - Entry]) AND \"" ++ j ++ "\"[Journal]"

/-- The nested query loops of `lookup_pubmed` (lines 679-687): outer
loop over journals, inner loop over keywords, one combined query per
pair. -/
def queryPlan : List String → List String → PyDate → PyDate → List String
  | [], _, _, _ => []
  | j :: js, ks, sd, ed =>
    ks.map (fun kw => combinedQuery kw sd ed j) ++ queryPlan js ks sd ed

/-! ## The shape of a run of `main` (lines 787-813) and the head of
`get_pptx` (lines 190-193, 561-562) -/

/-- The externally visible milestones of one run: reading the config,
asking for dates, the network phase (`lookup_pubmed`), extraction, the
"no results" / "finished" closers, the "already exists" message of
`get_pptx`, building the report content, and saving the file. -/
inductive MEv where
  | config
  | askDate
  | network
  | extract
  | closer0
  | closer1
  | existsMsg
  | buildReport
  | saveFile
  deriving DecidableEq

/-- The head and tail of `get_pptx` (lines 190-193 and 196-562): if the
output filename already exists, print the message and `return` — before
building anything, touching the file, or raising; otherwise build the
slides and save.  (The build step assumes the per-record rendering
completes; its `NameError` failure mode is modelled by `instLines`.) -/
def get_pptxEvents (fileExists : Bool) : List MEv :=
  if fileExists then [.existsMsg] else [.buildReport, .saveFile]

/-- The milestone trace of `main` (lines 787-813) as a function of the
extracted components and of whether `publications.pptx` already exists:
config, dates, network, extraction, then `print_closer_0` exactly when
zero components were retained (line 804) and `print_closer_1` otherwise,
then `get_pptx` — which is called unconditionally (line 811). -/
def mainEvents (fileExists : Bool) (components : List Component) : List MEv :=
  [.config, .askDate, .network, .extract] ++
    (if components.isEmpty then [.closer0] else [.closer1]) ++
    get_pptxEvents fileExists

/-! ## Helper lemmas -/

/-- The single pass of `rdGo` computes the spec-side keep-first
deduplication of the elements whose title is not yet in `seen`. -/
theorem rdGo_eq_dedupeKeepFirst (l : List Component) :
    ∀ seen : List String,
      rdGo seen l = dedupeKeepFirst (l.filter (fun x => decide (x.title ∉ seen))) := by
  induction l with
  | nil => intro seen; simp [rdGo, dedupeKeepFirst]
  | cons x rest ih =>
    intro seen
    by_cases hx : x.title ∈ seen
    · rw [rdGo, if_pos hx, List.filter_cons_of_neg (by simp [hx])]
      exact ih seen
    · rw [rdGo, if_neg hx, List.filter_cons_of_pos (by simp [hx]),
        dedupeKeepFirst, ih (x.title :: seen), List.filter_filter]
      have hfe : rest.filter
            (fun y => decide (y.title ∉ x.title :: seen)) =
          rest.filter
            (fun a => decide (a.title ≠ x.title) && decide (a.title ∉ seen)) := by
        apply List.filter_congr
        intro y _
        by_cases h1 : y.title = x.title <;> by_cases h2 : y.title ∈ seen <;>
          simp [h1, h2]
      rw [hfe]

/-- `rdGo` only removes elements: its output is a sublist of its input. -/
theorem rdGo_sublist (l : List Component) :
    ∀ seen : List String, (rdGo seen l).Sublist l := by
  induction l with
  | nil => intro seen; exact List.Sublist.refl []
  | cons x rest ih =>
    intro seen
    by_cases hx : x.title ∈ seen
    · rw [rdGo, if_pos hx]
      exact (ih seen).cons x
    · rw [rdGo, if_neg hx]
      exact (ih (x.title :: seen)).cons₂ x

/-- Every element of the keep-first deduplication occurs in the input. -/
theorem dedupeKeepFirst_subset :
    ∀ l : List Component, ∀ y ∈ dedupeKeepFirst l, y ∈ l := by
  intro l
  induction l using dedupeKeepFirst.induct with
  | case1 => intro y hy; rw [dedupeKeepFirst] at hy; exact absurd hy (List.not_mem_nil y)
  | case2 x rest ih =>
    intro y hy
    rw [dedupeKeepFirst] at hy
    rcases List.mem_cons.mp hy with h | h
    · exact h ▸ List.mem_cons_self x rest
    · exact List.mem_cons_of_mem x (List.mem_of_mem_filter (ih y h))

/-- The titles of the keep-first deduplication are pairwise distinct. -/
theorem dedupeKeepFirst_nodup :
    ∀ l : List Component, ((dedupeKeepFirst l).map Component.title).Nodup := by
  intro l
  induction l using dedupeKeepFirst.induct with
  | case1 => simp [dedupeKeepFirst]
  | case2 x rest ih =>
    rw [dedupeKeepFirst, List.map_cons, List.nodup_cons]
    refine ⟨?_, ih⟩
    intro hx
    rcases List.mem_map.mp hx with ⟨y, hy, hty⟩
    have hyf := dedupeKeepFirst_subset _ y hy
    have := List.of_mem_filter hyf
    simp only [decide_eq_true_eq] at this
    exact this hty

/-! ## Claim theorems -/

/-- C9: `remove_duplicates` keeps exactly the first occurrence of each
distinct exact title string (it equals the spec-side keep-first
deduplication), preserves the relative order of kept records (the output
is a sublist of the input), and no two output elements share a title. -/
theorem c9_remove_duplicates_keeps_first (l : List Component) :
    remove_duplicates l = dedupeKeepFirst l ∧
    (remove_duplicates l).Sublist l ∧
    ((remove_duplicates l).map Component.title).Nodup := by
  have hmain : remove_duplicates l = dedupeKeepFirst l := by
    rw [remove_duplicates, rdGo_eq_dedupeKeepFirst l []]
    congr 1
    apply List.filter_eq_self.mpr
    intro y _
    simp
  exact ⟨hmain, by rw [remove_duplicates]; exact rdGo_sublist l [],
    by rw [hmain]; exact dedupeKeepFirst_nodup l⟩

/-- C1: the failing input of the claim — one identifier, responses
429, 429, success, attempt budget 3.  On the first 429 the handler in
`get_paper` evaluates `e.response.status_code` and raises
`AttributeError` before any print or sleep; the caller's
`except HTTPError` does not catch it, so the run crashes on the very
first attempt with NO backoff and no record returned — instead of
signaling "retryable" to the retry loop, backing off 10 units twice,
and returning the record once. -/
theorem c1_retry_crashes_on_429 :
    pmidLoop 3 (fun n => if n < 2 then Resp.err 429 else Resp.ok (77 : Nat)) ["17"] 0 =
      ⟨[], [.sleepEv 1, .fetchEv "17"], 1, true⟩ := by
  rfl

/-- C2: a run with zero retained publications and no pre-existing output
file signals the "no results" closer but still reaches the save step of
`get_pptx`: `main` calls `get_pptx` unconditionally after
`print_closer_0`, so an output file IS produced. -/
theorem c2_empty_run_still_writes_file :
    mainEvents false [] =
      [.config, .askDate, .network, .extract, .closer0, .buildReport, .saveFile] ∧
    MEv.closer0 ∈ mainEvents false [] ∧ MEv.saveFile ∈ mainEvents false [] := by
  decide

/-- C3 counterexample: with the output file already present, the
"already exists" condition appears only at the `get_pptx` stage, and the
network phase occurs strictly before it — the trace up to the first
`existsMsg` event contains `network`, refuting "surfaced before any
network activity begins". -/
theorem c3_exists_check_after_network :
    mainEvents true [] =
      [.config, .askDate, .network, .extract, .closer0, .existsMsg] ∧
    MEv.network ∈ (mainEvents true []).takeWhile (fun e => decide (e ≠ MEv.existsMsg)) := by
  decide

/-- C3 amended: when the output file already exists the run signals the
distinct "already exists" condition, builds no report content transfers
and never saves (so the existing file is never overwritten or
truncated) — but the condition is surfaced only after the network phase,
not before it, and the run completes instead of failing. -/
theorem c3_exists_refusal (components : List Component) :
    MEv.saveFile ∉ mainEvents true components ∧
    MEv.buildReport ∉ mainEvents true components ∧
    MEv.existsMsg ∈ mainEvents true components ∧
    MEv.network ∈ (mainEvents true components).takeWhile
      (fun e => decide (e ≠ MEv.existsMsg)) := by
  cases components with
  | nil => decide
  | cons c cs =>
    have h : mainEvents true (c :: cs) =
        [.config, .askDate, .network, .extract, .closer1, .existsMsg] := rfl
    rw [h]
    decide

/-- C4 counterexample: one identifier, attempt budget 2, all fetches
succeeding.  The trace is `sleep 1, fetch, fetch`: the second fetch (the
retry-loop's second iteration) is immediately preceded by another fetch,
not by a 1-unit pause — `time.sleep(1)` sits outside the
`for _ in range(attempt_number)` loop. -/
theorem c4_second_fetch_unpaced :
    (pmidLoop 2 (fun _ => Resp.ok (5 : Nat)) ["a"] 0).events =
      [.sleepEv 1, .fetchEv "a", .fetchEv "a"] ∧
    (pmidLoop 2 (fun _ => Resp.ok (5 : Nat)) ["a"] 0).events[2]? =
      some (Ev.fetchEv "a") ∧
    (pmidLoop 2 (fun _ => Resp.ok (5 : Nat)) ["a"] 0).events[1]? ≠
      some (Ev.sleepEv 1) := by
  decide

/-- C5 counterexample: a raw record whose first article has no title
(but has an abstract) followed by a fully valid second article yields NO
records at all — the `break` ends the loop over the whole record — while
the same valid article alone yields its record.  This refutes "every
other article in the same raw record still yields its own record". -/
theorem c5_break_skips_rest_of_record :
    get_paper_info [⟨[⟨true, none, some "A1", none, none, none, none⟩,
                      ⟨true, some "T2", some "A2", none, none, none, none⟩]⟩] = [] ∧
    get_paper_info [⟨[⟨true, some "T2", some "A2", none, none, none, none⟩]⟩] =
      [⟨"T2", "A2", none, .na, .na, .na, none⟩] := by
  decide

/-- An article with the `MedlineCitation.Article` path but a missing
title or abstract terminates the article loop of its record: the
articles after it contribute nothing. -/
theorem processArticles_break (pre post : List Article) (a : Article)
    (hpath : a.hasArticlePath = true)
    (hbad : a.articleTitle = none ∨ a.abstractText = none) :
    processArticles (pre ++ a :: post) = processArticles pre := by
  induction pre with
  | nil =>
    rcases hbad with h | h
    · simp [processArticles, hpath, h]
    · rcases hta : a.articleTitle with _ | t
      · simp [processArticles, hpath, hta]
      · simp [processArticles, hpath, hta, h]
  | cons x xs ih =>
    by_cases hx : x.hasArticlePath = true
    · rcases hxt : x.articleTitle with _ | t
      · simp [processArticles, hx, hxt]
      · rcases hxa : x.abstractText with _ | ab
        · simp [processArticles, hx, hxt, hxa]
        · simp [processArticles, hx, hxt, hxa, ih]
    · simp [processArticles, hx, ih]

/-- C5 amended: an article with the article path present but no title
field, or no abstract field, is skipped entirely with no partial record
— and so are ALL remaining articles of the same raw record; articles of
the other raw records are unaffected (their records are still produced
and deduplicated as usual). -/
theorem c5_bad_article_truncates_record (pre post : List Article) (a : Article)
    (others : List Paper) (hpath : a.hasArticlePath = true)
    (hbad : a.articleTitle = none ∨ a.abstractText = none) :
    get_paper_info (⟨pre ++ a :: post⟩ :: others) =
      remove_duplicates (processArticles pre ++ collectPapers others) := by
  rw [get_paper_info, collectPapers, processArticles_break pre post a hpath hbad]

/-- Witness for the C5 amended theorem at a concrete input: the bad
article (title missing) truncates its own record after `pre = []`, while
the other record's article survives. -/
theorem c5_bad_article_truncates_record_witness :
    ((⟨true, none, some "A1", none, none, none, none⟩ : Article).hasArticlePath = true ∧
      ((⟨true, none, some "A1", none, none, none, none⟩ : Article).articleTitle = none ∨
       (⟨true, none, some "A1", none, none, none, none⟩ : Article).abstractText = none)) ∧
    get_paper_info
        (⟨[] ++ (⟨true, none, some "A1", none, none, none, none⟩ : Article) ::
            [⟨true, some "T2", some "A2", none, none, none, none⟩]⟩ ::
          [⟨[⟨true, some "T3", some "A3", none, none, none, none⟩]⟩]) =
      remove_duplicates (processArticles [] ++
        collectPapers [⟨[⟨true, some "T3", some "A3", none, none, none, none⟩]⟩]) :=
  ⟨⟨rfl, Or.inl rfl⟩,
    c5_bad_article_truncates_record [] [⟨true, some "T2", some "A2", none, none, none, none⟩]
      ⟨true, none, some "A1", none, none, none, none⟩
      [⟨[⟨true, some "T3", some "A3", none, none, none, none⟩]⟩] rfl (Or.inl rfl)⟩

/-- C7: the institutions line is NOT computed solely from the record's
own affiliation list.  With a first record whose affiliations are
`["X"]` and a second record with no affiliation list at all, the second
slide shows the first record's summary (`Institutions: X 1`); and when
the very first record lacks an affiliation list, line 536 reads the
never-assigned `institution_count` and the rendering dies with
`NameError` (modelled by `none`). -/
theorem c7_institution_state_leaks :
    instLines [⟨"t1", "a1", none, .na, .na, .na, some ["X"]⟩,
               ⟨"t2", "a2", none, .na, .na, .na, none⟩] =
      some ["Institutions: X 1", "Institutions: X 1"] ∧
    instLines [⟨"t2", "a2", none, .na, .na, .na, none⟩] = none := by
  decide

/-- C8 counterexample: a date window produced by the custom branch of
`ask_user_date` consists of `datetime` values; the f-string renders them
as `YYYY-MM-DD HH:MM:SS`, so the query for journals `["Nature"]` and
topics `["cryoEM"]` is NOT the claimed grammar string with
`YYYY/MM/DD` dates. -/
theorem c8_custom_dates_break_grammar :
    queryPlan ["Nature"] ["cryoEM"]
        (ask_user_date_custom 2020 1 1 2020 2 1).1
        (ask_user_date_custom 2020 1 1 2020 2 1).2 =
      ["cryoEM AND (\"2020-01-01 00:00:00\"[Date - Entry] : \"2020-02-01 00:00:00\"[Date - Entry]) AND \"Nature\"[Journal]"] ∧
    queryPlan ["Nature"] ["cryoEM"]
        (ask_user_date_custom 2020 1 1 2020 2 1).1
        (ask_user_date_custom 2020 1 1 2020 2 1).2 ≠
      ["cryoEM AND (\"2020/01/01\"[Date - Entry] : \"2020/02/01\"[Date - Entry]) AND \"Nature\"[Journal]"] := by
  decide

/-- The plan has one query per (journal, topic) pair. -/
theorem queryPlan_length (js ks : List String) (sd ed : PyDate) :
    (queryPlan js ks sd ed).length = js.length * ks.length := by
  induction js with
  | nil => simp [queryPlan]
  | cons j js ih =>
    rw [queryPlan, List.length_append, List.length_map, ih, List.length_cons,
      Nat.succ_mul, Nat.add_comm]

/-- Journal-major, topic-minor ordering: the query at flat position
`i * |topics| + k` is the query of journal `i` and topic `k`. -/
theorem queryPlan_get (js ks : List String) (sd ed : PyDate) (i k : Nat)
    (hi : i < js.length) (hk : k < ks.length) :
    (queryPlan js ks sd ed)[i * ks.length + k]? =
      some (combinedQuery (ks.get ⟨k, hk⟩) sd ed (js.get ⟨i, hi⟩)) := by
  induction js generalizing i with
  | nil => exact absurd hi (Nat.not_lt_zero i)
  | cons j js ih =>
    cases i with
    | zero =>
      rw [queryPlan, Nat.zero_mul, Nat.zero_add,
        List.getElem?_append_left (by simpa using hk), List.getElem?_map,
        List.getElem?_eq_getElem hk]
      rfl
    | succ i =>
      have hi2 : i < js.length := Nat.lt_of_succ_lt_succ hi
      have harith : Nat.succ i * ks.length + k =
          ks.length + (i * ks.length + k) := by
        rw [Nat.succ_mul]; omega
      rw [queryPlan, harith,
        List.getElem?_append_right (by simp only [List.length_map]; omega)]
      have hsub : ks.length + (i * ks.length + k) - (ks.map
          (fun kw => combinedQuery kw sd ed j)).length = i * ks.length + k := by
        simp only [List.length_map]; omega
      rw [hsub]
      exact ih i hi2

/-- C8 amended: for every window whose endpoints are strings — the shape
the default date path supplies, in `YYYY/MM/DD` form — the plan has
exactly `|journals| × |topics|` queries, in journal-major, topic-minor
order, and each serializes to the exact grammar string with the
endpoint strings interpolated verbatim. -/
theorem c8_plan_grammar (js ks : List String) (a b : String) (i k : Nat)
    (hi : i < js.length) (hk : k < ks.length) :
    (queryPlan js ks (PyDate.str a) (PyDate.str b)).length =
      js.length * ks.length ∧
    (queryPlan js ks (PyDate.str a) (PyDate.str b))[i * ks.length + k]? =
      some (ks.get ⟨k, hk⟩ ++ " AND (\"" ++ a ++ "\"[Date - Entry] : \"" ++ b
        ++ "\"[Date - Entry]) AND \"" ++ js.get ⟨i, hi⟩ ++ "\"[Journal]") := by
  refine ⟨queryPlan_length js ks _ _, ?_⟩
  rw [queryPlan_get js ks _ _ i k hi hk]
  rfl

/-- Witness for the C8 amended theorem: journals `["J1","J2"]`, topics
`["k1","k2","k3"]`, default-path-shaped string window; the query at flat
position 5 = 1·3+2 is journal `J2` with topic `k3`. -/
theorem c8_plan_grammar_witness :
    (1 < (["J1", "J2"] : List String).length ∧
      2 < (["k1", "k2", "k3"] : List String).length) ∧
    (queryPlan ["J1", "J2"] ["k1", "k2", "k3"]
        (PyDate.str "2024/01/01") (PyDate.str "3000/01/01"))[5]? =
      some "k3 AND (\"2024/01/01\"[Date - Entry] : \"3000/01/01\"[Date - Entry]) AND \"J2\"[Journal]" :=
  ⟨⟨by decide, by decide⟩,
    (c8_plan_grammar ["J1", "J2"] ["k1", "k2", "k3"] "2024/01/01" "3000/01/01"
      1 2 (by decide) (by decide)).2⟩

/-- A non-crashing pass of the per-PMID retry loop performs exactly its
attempt budget of fetch calls — and nothing else, in particular no
sleeps — and advances the call counter by the budget. -/
theorem attemptLoop_no_crash {α : Type} (pmid : String) (att : Nat)
    (σ : Nat → Resp α) (c : Nat)
    (h : (attemptLoop pmid att σ c).crashed = false) :
    (attemptLoop pmid att σ c).events = List.replicate att (Ev.fetchEv pmid) ∧
    (attemptLoop pmid att σ c).nextCall = c + att := by
  induction att generalizing c with
  | zero => exact ⟨rfl, rfl⟩
  | succ att ih =>
    rcases hσ : σ c with p | s
    · simp only [attemptLoop, get_paper, hσ] at h ⊢
      obtain ⟨he, hn⟩ := ih (c + 1) h
      rw [he, hn]
      exact ⟨rfl, by omega⟩
    · simp [attemptLoop, get_paper, hσ] at h

/-- C4 amended: in every non-crashing execution of the retrieval loop,
the mandatory 1-unit pause occurs exactly once per identifier,
immediately before that identifier's block of `att` fetch calls — not
before every individual fetch call: retries within one identifier's
attempt budget run back-to-back with no pause between them. -/
theorem c4_one_pause_per_identifier {α : Type} (pmids : List String) (att : Nat)
    (σ : Nat → Resp α) (c : Nat)
    (h : (pmidLoop att σ pmids c).crashed = false) :
    (pmidLoop att σ pmids c).events = pacedEvents att pmids := by
  induction pmids generalizing c with
  | nil => rfl
  | cons p rest ih =>
    rcases hr : (attemptLoop p att σ c).crashed with _ | _
    · simp only [pmidLoop, hr, Bool.false_eq_true, if_false] at h ⊢
      obtain ⟨he, _⟩ := attemptLoop_no_crash p att σ c hr
      rw [pacedEvents, he, ih _ h]
    · simp [pmidLoop, hr] at h

/-- Witness for the C4 amended theorem: two identifiers, attempt budget
2, all fetches succeeding — the trace is one pause then two fetches per
identifier. -/
theorem c4_one_pause_per_identifier_witness :
    (pmidLoop 2 (fun _ => Resp.ok (3 : Nat)) ["a", "b"] 0).crashed = false ∧
    (pmidLoop 2 (fun _ => Resp.ok (3 : Nat)) ["a", "b"] 0).events =
      pacedEvents 2 ["a", "b"] :=
  ⟨by decide, c4_one_pause_per_identifier ["a", "b"] 2 (fun _ => Resp.ok 3) 0 (by decide)⟩

/-- When every fetch succeeds, the retry loop for one PMID still runs
all of its attempts: the same record is fetched and appended once per
attempt. -/
theorem attemptLoop_all_ok {α : Type} (pmid : String) (att : Nat) (r : α) (c : Nat) :
    attemptLoop pmid att (fun _ => Resp.ok r) c =
      ⟨List.replicate att r, List.replicate att (Ev.fetchEv pmid), c + att, false⟩ := by
  induction att generalizing c with
  | zero => rfl
  | succ att ih =>
    simp [attemptLoop, get_paper, ih, List.replicate_succ]
    omega

/-- C10: when every fetch call succeeds with record `r`, the retrieval
loop never stops at the first success: each identifier's record is
fetched `att` times (the attempt budget, default 2) and appended `att`
times to the raw papers list handed to extraction and deduplication. -/
theorem c10_loop_repeats_successful_fetch {α : Type} (pmids : List String)
    (att : Nat) (r : α) (c : Nat) :
    pmidLoop att (fun _ => Resp.ok r) pmids c =
      ⟨repeatedPapers att r pmids, pacedEvents att pmids,
        c + pmids.length * att, false⟩ := by
  induction pmids generalizing c with
  | nil => simp [pmidLoop, repeatedPapers, pacedEvents]
  | cons p rest ih =>
    simp [pmidLoop, attemptLoop_all_ok, ih, repeatedPapers, pacedEvents,
      Nat.succ_mul]
    omega

/-- A found index of `lastSpaceIdx` is in range and points at a space. -/
theorem lastSpaceIdx_some : ∀ {l : List Char} {k : Nat},
    lastSpaceIdx l = some k → k < l.length ∧ l[k]? = some ' ' := by
  intro l
  induction l with
  | nil => intro k h; simp [lastSpaceIdx] at h
  | cons c cs ih =>
    intro k h
    rw [lastSpaceIdx] at h
    cases hrec : lastSpaceIdx cs with
    | some k2 =>
      rw [hrec] at h
      obtain ⟨h1, h2⟩ := ih hrec
      injection h with h
      subst h
      exact ⟨Nat.succ_lt_succ h1, by simpa using h2⟩
    | none =>
      rw [hrec] at h
      by_cases hc : c = ' '
      · rw [if_pos hc] at h
        injection h with h
        subst h
        exact ⟨Nat.succ_pos _, by simp [hc]⟩
      · rw [if_neg hc] at h
        exact absurd h (by simp)

/-- `noAdjSp` passes from a list to its tail. -/
theorem noAdjSp_tail {c : Char} {t : List Char} (h : noAdjSp (c :: t) = true) :
    noAdjSp t = true := by
  cases t with
  | nil => rfl
  | cons b t2 =>
    rw [noAdjSp, Bool.and_eq_true] at h
    exact h.2

/-- `noAdjSp` passes to every suffix. -/
theorem noAdjSp_drop {s : List Char} (h : noAdjSp s = true) (n : Nat) :
    noAdjSp (s.drop n) = true := by
  induction n generalizing s with
  | zero => simpa using h
  | succ n ih =>
    cases s with
    | nil => rfl
    | cons c t =>
      rw [List.drop_succ_cons]
      exact ih (noAdjSp_tail h)

/-- With no adjacent spaces, the character after a space is not a
space. -/
theorem noAdjSp_get {s : List Char} (h : noAdjSp s = true) : ∀ {i : Nat},
    s[i]? = some ' ' → s[i + 1]? ≠ some ' ' := by
  induction s with
  | nil => intro i hi; simp at hi
  | cons c t ih =>
    intro i hi
    cases i with
    | zero =>
      cases t with
      | nil => simp
      | cons b t2 =>
        rw [noAdjSp, Bool.and_eq_true] at h
        have h1 := h.1
        have hc : c = ' ' := by simpa using hi
        intro hb
        have hb2 : b = ' ' := by simpa using hb
        rw [hc, hb2] at h1
        simp at h1
    | succ i =>
      have := ih (noAdjSp_tail h) (by simpa using hi)
      simpa using this

/-- Every whitespace character of a `spacesOnlyWS` text is `' '`. -/
theorem spacesOnlyWS_mem {s : List Char} (h : spacesOnlyWS s = true) {c : Char}
    (hc : c ∈ s) (hsp : isPySpace c = true) : c = ' ' := by
  have h2 := List.all_eq_true.mp h c hc
  simp only [hsp] at h2
  simpa using h2

/-- `spacesOnlyWS` passes to every suffix. -/
theorem spacesOnlyWS_drop {s : List Char} (h : spacesOnlyWS s = true) (n : Nat) :
    spacesOnlyWS (s.drop n) = true := by
  apply List.all_eq_true.mpr
  intro c hc
  exact List.all_eq_true.mp h c (List.drop_subset n s hc)

/-- `lstrip` strips nothing from a text whose head is not whitespace. -/
theorem stripLeading_eq_self {t : List Char}
    (ht : ∀ b t2, t = b :: t2 → isPySpace b = false) : stripLeading t = t := by
  cases t with
  | nil => rfl
  | cons b t2 =>
    rw [stripLeading, List.dropWhile_cons, if_neg (by simp [ht b t2 rfl])]

/-- `lstrip` consumes a leading space. -/
theorem stripLeading_space_cons {t : List Char} :
    stripLeading (' ' :: t) = stripLeading t := by
  rw [stripLeading, List.dropWhile_cons, if_pos (by decide)]
  rfl

/-- After an isolated space (no adjacent space, no exotic whitespace in
the text), the break's `lstrip` removes exactly that one space. -/
theorem stripLeading_after_space {s : List Char} {j : Nat}
    (hsp : spacesOnlyWS s = true) (hadj : noAdjSp s = true)
    (hj : s[j]? = some ' ') : stripLeading (s.drop (j + 1)) = s.drop (j + 1) := by
  apply stripLeading_eq_self
  intro b t2 hbt
  have hb : s[j + 1]? = some b := by
    have := List.getElem?_drop s (j + 1) 0
    rw [hbt] at this
    simpa using this.symm
  by_cases hbsp : isPySpace b = true
  · obtain ⟨hlt, heq⟩ := List.getElem?_eq_some.mp hb
    have hmem : b ∈ s := heq ▸ List.getElem_mem hlt
    have : b = ' ' := spacesOnlyWS_mem hsp hmem hbsp
    rw [this] at hb
    exact absurd hb (noAdjSp_get hadj hj)
  · exact Bool.not_eq_true _ ▸ (by simpa using hbsp)

/-- Splitting a text at a space and rejoining with a single space is the
identity. -/
theorem take_space_drop {s : List Char} {j : Nat} (hj : s[j]? = some ' ') :
    s.take j ++ ' ' :: s.drop (j + 1) = s := by
  obtain ⟨hlt, heq⟩ := List.getElem?_eq_some.mp hj
  rw [← heq, ← List.drop_eq_getElem_cons hlt, List.take_append_drop]

/-- The wrap loop, on a positive budget and a text whose whitespace
consists of single isolated `' '` characters: rejoining its lines with
one space at each space-consuming break reconstructs the text, and every
emitted line (the forced hard-break lines included) fits the budget. -/
theorem wrapGo_spec (m : Nat) (hm : 1 ≤ m) :
    ∀ (fuel : Nat) (s : List Char), s.length ≤ fuel →
      spacesOnlyWS s = true → noAdjSp s = true →
      joinWrap (wrapGo fuel s m) = s ∧
      ∀ p ∈ wrapGo fuel s m, p.1.length ≤ m := by
  intro fuel
  induction fuel with
  | zero =>
    intro s hlen _ _
    have hs : s = [] := List.length_eq_zero.mp (Nat.le_zero.mp hlen)
    subst hs
    refine ⟨rfl, ?_⟩
    intro p hp
    rw [wrapGo] at hp
    rcases List.mem_singleton.mp hp with rfl
    exact Nat.zero_le m
  | succ fuel ih =>
    intro s hlen hsp hadj
    by_cases hgt : s.length > m
    · rcases hk : lastSpaceIdx (s.take m) with _ | k
      · -- no space in the window: forced hard break exactly at m
        have hw : wrapGo (fuel + 1) s m =
            (s.take m, decide ((s.drop m).head? = some ' ')) ::
              wrapGo fuel (stripLeading (s.drop m)) m := by
          rw [wrapGo, if_pos hgt, hk]
          rfl
        by_cases hch : s[m]? = some ' '
        · -- the boundary character is a space: consumed by lstrip
          have hdropm : s.drop m = ' ' :: s.drop (m + 1) := by
            obtain ⟨hlt, heq⟩ := List.getElem?_eq_some.mp hch
            rw [List.drop_eq_getElem_cons hlt, heq]
          have hflag : decide ((s.drop m).head? = some ' ') = true := by
            rw [hdropm]; rfl
          have hstrip : stripLeading (s.drop m) = s.drop (m + 1) := by
            rw [hdropm, stripLeading_space_cons,
              stripLeading_after_space hsp hadj hch]
          have hlen2 : (s.drop (m + 1)).length ≤ fuel := by
            rw [List.length_drop]; omega
          obtain ⟨hjoin, hlines⟩ := ih (s.drop (m + 1)) hlen2
            (spacesOnlyWS_drop hsp (m + 1)) (noAdjSp_drop hadj (m + 1))
          rw [hw, hflag, hstrip]
          constructor
          · rw [joinWrap, hjoin, if_pos rfl]
            simpa using take_space_drop hch
          · intro p hp
            rcases List.mem_cons.mp hp with rfl | hp2
            · simp only [List.length_take]; omega
            · exact hlines p hp2
        · -- the boundary character is not a space: lstrip strips nothing
          have hmlt : m < s.length := hgt
          have hdropm : s.drop m = s[m] :: s.drop (m + 1) :=
            List.drop_eq_getElem_cons hmlt
          have hne : ¬ s[m] = ' ' := by
            intro he
            exact hch (by rw [List.getElem?_eq_getElem hmlt, he])
          have hnsp : isPySpace s[m] = false := by
            by_cases hbsp : isPySpace s[m] = true
            · exact absurd (spacesOnlyWS_mem hsp (List.getElem_mem hmlt) hbsp) hne
            · simpa using hbsp
          have hflag : decide ((s.drop m).head? = some ' ') = false := by
            rw [hdropm]
            simp only [List.head?_cons, decide_eq_false_iff_not, Option.some.injEq]
            exact hne
          have hstrip : stripLeading (s.drop m) = s.drop m := by
            apply stripLeading_eq_self
            intro b t2 hbt
            rw [hdropm] at hbt
            injection hbt with hb ht
            rw [← hb]
            exact hnsp
          have hlen2 : (s.drop m).length ≤ fuel := by
            rw [List.length_drop]; omega
          obtain ⟨hjoin, hlines⟩ := ih (s.drop m) hlen2
            (spacesOnlyWS_drop hsp m) (noAdjSp_drop hadj m)
          rw [hw, hflag, hstrip]
          constructor
          · rw [joinWrap, hjoin, if_neg (by simp)]
            simp
          · intro p hp
            rcases List.mem_cons.mp hp with rfl | hp2
            · simp only [List.length_take]; omega
            · exact hlines p hp2
      · -- a space was found in the window: soft break at its index
        have hw : wrapGo (fuel + 1) s m =
            (s.take k, decide ((s.drop k).head? = some ' ')) ::
              wrapGo fuel (stripLeading (s.drop k)) m := by
          rw [wrapGo, if_pos hgt, hk]
          rfl
        obtain ⟨hk1, hk2⟩ := lastSpaceIdx_some hk
        have hkm : k < m := by
          rw [List.length_take] at hk1
          omega
        have hks : s[k]? = some ' ' := by
          rw [← List.getElem?_take_of_lt hkm]
          exact hk2
        have hdropk : s.drop k = ' ' :: s.drop (k + 1) := by
          obtain ⟨hlt, heq⟩ := List.getElem?_eq_some.mp hks
          rw [List.drop_eq_getElem_cons hlt, heq]
        have hflag : decide ((s.drop k).head? = some ' ') = true := by
          rw [hdropk]; rfl
        have hstrip : stripLeading (s.drop k) = s.drop (k + 1) := by
          rw [hdropk, stripLeading_space_cons,
            stripLeading_after_space hsp hadj hks]
        have hlen2 : (s.drop (k + 1)).length ≤ fuel := by
          rw [List.length_drop]; omega
        obtain ⟨hjoin, hlines⟩ := ih (s.drop (k + 1)) hlen2
          (spacesOnlyWS_drop hsp (k + 1)) (noAdjSp_drop hadj (k + 1))
        rw [hw, hflag, hstrip]
        constructor
        · rw [joinWrap, hjoin, if_pos rfl]
          simpa using take_space_drop hks
        · intro p hp
          rcases List.mem_cons.mp hp with rfl | hp2
          · simp only [List.length_take]; omega
          · exact hlines p hp2
    · -- remaining text fits: emitted as the final line
      have hw : wrapGo (fuel + 1) s m = [(s, false)] := by
        rw [wrapGo, if_neg hgt]
      rw [hw]
      constructor
      · simp [joinWrap]
      · intro p hp
        rcases List.mem_singleton.mp hp with rfl
        simpa using Nat.le_of_not_lt hgt

/-- C6 counterexample: input `"ab  cd"` (two adjacent spaces) with
budget 3.  The engine emits lines `ab`, `cd` across one soft
(space-consuming) break; rejoining with a single space yields `"ab cd"`,
not the stripped input `"ab  cd"` — the lstrip at the break discarded
both spaces, so no single-space reinsertion can reconstruct the text. -/
theorem c6_adjacent_spaces_lost :
    joinWrap (layoutField "ab  cd".data 3) ≠ stripTags "ab  cd".data ∧
    (layoutField "ab  cd".data 3).map Prod.fst = ["ab".data, "cd".data] := by
  decide

/-- C6 amended: for every input whose tag-stripped text contains no
whitespace other than `' '` and no two adjacent spaces, and every
positive line budget: concatenating the emitted lines with a single
space reinserted at each space-consuming (soft) break reconstructs the
tag-stripped text exactly, and every emitted line has length at most the
budget — including the forced hard-break case, which emits a line of
exactly the budget length. -/
theorem c6_wrap_reconstructs (u : List Char) (m : Nat) (hm : 1 ≤ m)
    (hsp : spacesOnlyWS (stripTags u) = true)
    (hadj : noAdjSp (stripTags u) = true) :
    joinWrap (layoutField u m) = stripTags u ∧
    ∀ p ∈ layoutField u m, p.1.length ≤ m :=
  wrapGo_spec m hm (stripTags u).length (stripTags u) le_rfl hsp hadj

/-- Witness for the C6 amended theorem on the spec's own example,
`wrap("The quick brown fox jumps", 10)`. -/
theorem c6_wrap_reconstructs_witness :
    (1 ≤ 10 ∧ spacesOnlyWS (stripTags "The quick brown fox jumps".data) = true ∧
      noAdjSp (stripTags "The quick brown fox jumps".data) = true) ∧
    joinWrap (layoutField "The quick brown fox jumps".data 10) =
      stripTags "The quick brown fox jumps".data :=
  ⟨⟨by decide, by decide, by decide⟩,
    (c6_wrap_reconstructs "The quick brown fox jumps".data 10 (by decide)
      (by decide) (by decide)).1⟩
